import Mathlib

/-!
Shallow embedding of kuryr_kubernetes/controller/drivers/vif_pool.py.

The registries (class attributes of BaseVIFPool) are modelled as
association lists with Python-dict semantics: lookup returns the first
entry with the key, assignment replaces in place or appends, deletion
removes the entry (dict keys are unique, so removing every entry with
the key agrees with removing the single one).  Neutron and the nested
VIF driver are external collaborators: every call site receives the
outcome of that call as an explicit oracle argument (success,
PortNotFoundClient, or a generic NeutronClientException;
PortNotFoundClient is a subclass of NeutronClientException, which the
handler order below reflects).  Timestamps are integers and time.time()
is passed in as a parameter.  eventlet.spawn targets are reported in the
result (spawns field) instead of being run.
-/

namespace VifPool

abbrev PortId := Nat
abbrev HostAddr := Nat
abbrev ProjectId := Nat
abbrev SecGroup := Nat

/-- pool_key = (host_addr, project_id, tuple(security_groups)). -/
structure PoolKey where
  host : HostAddr
  project : ProjectId
  sgs : List SecGroup
deriving DecidableEq, Repr

/-- A port vif object: identity is the id; vlan_id is used by the nested
variant only. -/
structure Vif where
  id : PortId
  vlan_id : Nat
deriving DecidableEq, Repr

/-- A pod; status.hostIP may be absent (pod not scheduled yet).  The
metadata fields (name, uid) are only copied into update_port bodies and
have no effect on the pool state, so they are not modelled. -/
structure Pod where
  hostIP : Option HostAddr
deriving DecidableEq, Repr

/-- The vif_pool driver configuration options. -/
structure Config where
  ports_pool_max : Nat
  ports_pool_min : Nat
  ports_pool_batch : Nat
  ports_pool_update_frequency : Int
deriving DecidableEq, Repr

deriving instance DecidableEq for Except

/-- Python d.get(k): first entry with key k. -/
def dictGet [DecidableEq α] : List (α × β) → α → Option β
  | [], _ => none
  | (a, b) :: t, k => if a = k then some b else dictGet t k

/-- Python d[k] = v: replace the entry in place, else append. -/
def dictSet [DecidableEq α] : List (α × β) → α → β → List (α × β)
  | [], k, v => [(k, v)]
  | (a, b) :: t, k, v => if a = k then (k, v) :: t else (a, b) :: dictSet t k v

/-- Python del d[k]: remove the entry with key k. -/
def dictDel [DecidableEq α] : List (α × β) → α → List (α × β)
  | [], _ => []
  | (a, b) :: t, k => if a = k then dictDel t k else (a, b) :: dictDel t k

/-- The shared registries of BaseVIFPool:
_available_ports_pools, _existing_vifs, _recyclable_ports, _last_update,
and the NestedVIFPool extra _known_trunk_ids. -/
structure PoolState where
  available : List (PoolKey × List PortId)
  existing : List (PortId × Vif)
  recyclable : List (PortId × PoolKey)
  last_update : List (PoolKey × Int)
  known_trunk_ids : List (PoolKey × Nat)
deriving DecidableEq, Repr

/-- Contents of one pool, defaulting to empty: the deque at pool_key. -/
def getPool (st : PoolState) (k : PoolKey) : List PortId :=
  (dictGet st.available k).getD []

/-- BaseVIFPool._get_pool_size:
len(self._available_ports_pools.get(pool_key, [])). -/
def get_pool_size (st : PoolState) (k : PoolKey) : Nat :=
  (getPool st k).length

/-- Outcome classes of a neutron client call that the handlers in
vif_pool.py distinguish. -/
inductive NErr
  | portNotFound
  | clientError
deriving DecidableEq, Repr

/-- Exceptions that escape the modelled operations. -/
inductive PyErr
  | keyError
  | resourceNotReady
  | portNotFound
  | neutronClientError
deriving DecidableEq, Repr

/-- The exception class a failed neutron call raises. -/
def nerrToPy : NErr → PyErr
  | NErr.portNotFound => PyErr.portNotFound
  | NErr.clientError => PyErr.neutronClientError

/-- Calls made against the external provider, in order. -/
inductive PCall
  | updatePort (id : PortId)
  | deletePort (id : PortId)
  | requestVifs (n : Nat)
  | trunkResolve (k : PoolKey)
  | removeSubport (trunk : Nat) (id : PortId)
  | releaseVlan (tag : Nat)
deriving DecidableEq, Repr

structure PopulateOut where
  state : PoolState
  calls : List PCall
  raised : Bool
deriving DecidableEq, Repr

/-- One body of the for loop at the end of _populate_pool: register the
vif into _existing_vifs, append its id to the pool deque. -/
def register_vif (key : PoolKey) (st : PoolState) (v : Vif) : PoolState :=
  { st with existing := dictSet st.existing v.id v,
            available := dictSet st.available key (getPool st key ++ [v.id]) }

/-- BaseVIFPool._populate_pool.  reply is the outcome of
self._drv_vif.request_vifs(num_ports): none means the call raised. -/
def populate_pool (cfg : Config) (st : PoolState) (key : PoolKey) (now : Int)
    (reply : Option (List Vif)) : PopulateOut :=
  if now - cfg.ports_pool_update_frequency < (dictGet st.last_update key).getD 0 then
    ⟨st, [], false⟩
  else
    let st1 : PoolState := { st with last_update := dictSet st.last_update key now }
    let pool_size := get_pool_size st1 key
    if pool_size < cfg.ports_pool_min then
      let num_ports := max cfg.ports_pool_batch (cfg.ports_pool_min - pool_size)
      match reply with
      | none => ⟨st1, [PCall.requestVifs num_ports], true⟩
      | some vifs =>
          ⟨vifs.foldl (register_vif key) st1, [PCall.requestVifs num_ports], false⟩
    else
      ⟨st1, [], false⟩

structure AcquireOut where
  result : Except PyErr Vif
  state : PoolState
  spawns : List PoolKey
  calls : List PCall
deriving DecidableEq, Repr

/-- The _get_port_from_pool control flow, shared by NeutronVIFPool and
NestedVIFPool (the two methods differ only in the fields sent to
update_port, which do not touch the pool state).  updateRes is the
outcome of neutron.update_port on the popped port.  The deque pop takes
the most recently appended id; popping an empty deque raises IndexError,
turned into ResourceNotReady(pod). -/
def get_port_from_pool (cfg : Config) (st : PoolState) (key : PoolKey)
    (updateRes : Option NErr) : AcquireOut :=
  match (getPool st key).getLast? with
  | none => ⟨Except.error PyErr.resourceNotReady, st, [], []⟩
  | some port_id =>
    let st1 : PoolState :=
      { st with available := dictSet st.available key (getPool st key).dropLast }
    match updateRes with
    | some e => ⟨Except.error (nerrToPy e), st1, [], [PCall.updatePort port_id]⟩
    | none =>
      let spawns := if get_pool_size st1 key < cfg.ports_pool_min then [key] else []
      match dictGet st1.existing port_id with
      | none => ⟨Except.error PyErr.keyError, st1, spawns, [PCall.updatePort port_id]⟩
      | some vif => ⟨Except.ok vif, st1, spawns, [PCall.updatePort port_id]⟩

/-- BaseVIFPool.request_vif: derive the pool key (KeyError when the pod
has no hostIP), try the pool, and on ResourceNotReady spawn a
replenishment for the key and re-raise.  Other exceptions pass through. -/
def request_vif (cfg : Config) (st : PoolState) (pod : Pod)
    (project_id : ProjectId) (security_groups : List SecGroup)
    (updateRes : Option NErr) : AcquireOut :=
  match pod.hostIP with
  | none => ⟨Except.error PyErr.keyError, st, [], []⟩
  | some host_addr =>
    let pool_key : PoolKey := ⟨host_addr, project_id, security_groups⟩
    let o := get_port_from_pool cfg st pool_key updateRes
    match o.result with
    | Except.error PyErr.resourceNotReady =>
        ⟨Except.error PyErr.resourceNotReady, o.state, o.spawns ++ [pool_key], o.calls⟩
    | r => ⟨r, o.state, o.spawns, o.calls⟩

structure ReleaseOut where
  result : Except PyErr Unit
  state : PoolState
deriving DecidableEq, Repr

/-- BaseVIFPool.release_vif: pod['status']['hostIP'] raises KeyError when
absent, before any registry is touched; otherwise register the vif
defensively when unknown and mark it recyclable. -/
def release_vif (st : PoolState) (pod : Pod) (vif : Vif)
    (project_id : ProjectId) (security_groups : List SecGroup) : ReleaseOut :=
  match pod.hostIP with
  | none => ⟨Except.error PyErr.keyError, st⟩
  | some host_addr =>
    let pool_key : PoolKey := ⟨host_addr, project_id, security_groups⟩
    let st1 : PoolState :=
      if (dictGet st.existing vif.id).isSome then st
      else { st with existing := dictSet st.existing vif.id vif }
    ⟨Except.ok (), { st1 with recyclable := dictSet st1.recyclable vif.id pool_key }⟩

/-- Outcomes of the provider calls one reclamation-loop iteration can
make on its (port_id, pool_key) entry. -/
structure IterEnv where
  updateRes : Option NErr
  deleteRes : Option NErr
  trunkRes : Option Nat
  removeRes : Option NErr
deriving DecidableEq, Repr

inductive IterOut
  | completed
  | raised (e : PyErr)
deriving DecidableEq, Repr

structure SweepStep where
  out : IterOut
  state : PoolState
  calls : List PCall
deriving DecidableEq, Repr

/-- One iteration of the for loop in NeutronVIFPool._return_ports_to_pool
over a snapshot entry (port_id, pool_key). -/
def neutron_return_one (cfg : Config) (e : IterEnv) (st : PoolState)
    (port_id : PortId) (pool_key : PoolKey) : SweepStep :=
  if cfg.ports_pool_max = 0 ∨ get_pool_size st pool_key < cfg.ports_pool_max then
    match e.updateRes with
    | some _ =>
        -- except NeutronClientException: log and continue (the del of the
        -- recyclable entry at the end of the iteration is skipped)
        ⟨IterOut.completed, st, [PCall.updatePort port_id]⟩
    | none =>
        ⟨IterOut.completed,
         { st with
             available := dictSet st.available pool_key (getPool st pool_key ++ [port_id]),
             recyclable := dictDel st.recyclable port_id },
         [PCall.updatePort port_id]⟩
  else
    match dictGet st.existing port_id with
    | none =>
        -- del self._existing_vifs[port_id] raises KeyError, caught
        ⟨IterOut.completed, { st with recyclable := dictDel st.recyclable port_id }, []⟩
    | some _ =>
        let st1 : PoolState := { st with existing := dictDel st.existing port_id }
        match e.deleteRes with
        | some NErr.portNotFound =>
            ⟨IterOut.completed, { st1 with recyclable := dictDel st1.recyclable port_id },
             [PCall.deletePort port_id]⟩
        | some NErr.clientError =>
            -- a generic NeutronClientException from delete_port matches no
            -- handler here: it propagates and kills the loop
            ⟨IterOut.raised PyErr.neutronClientError, st1, [PCall.deletePort port_id]⟩
        | none =>
            ⟨IterOut.completed, { st1 with recyclable := dictDel st1.recyclable port_id },
             [PCall.deletePort port_id]⟩

/-- The try block of the deletion arm of
NestedVIFPool._return_ports_to_pool, entered with the trunk id in hand:
remove the subport, release the vlan tag of the vif (looking it up in
_existing_vifs raises KeyError when absent), delete the vif and the
port.  Handlers: PortNotFoundClient and KeyError fall through to the del
of the recyclable entry; NeutronClientException continues, keeping it. -/
def nested_delete_branch (e : IterEnv) (st : PoolState)
    (port_id : PortId) (trunk_id : Nat) (pre : List PCall) : SweepStep :=
  match e.removeRes with
  | some NErr.portNotFound =>
      ⟨IterOut.completed, { st with recyclable := dictDel st.recyclable port_id },
       pre ++ [PCall.removeSubport trunk_id port_id]⟩
  | some NErr.clientError =>
      ⟨IterOut.completed, st, pre ++ [PCall.removeSubport trunk_id port_id]⟩
  | none =>
      match dictGet st.existing port_id with
      | none =>
          ⟨IterOut.completed, { st with recyclable := dictDel st.recyclable port_id },
           pre ++ [PCall.removeSubport trunk_id port_id]⟩
      | some vif =>
          let st1 : PoolState := { st with existing := dictDel st.existing port_id }
          let calls := pre ++ [PCall.removeSubport trunk_id port_id,
                               PCall.releaseVlan vif.vlan_id, PCall.deletePort port_id]
          match e.deleteRes with
          | some NErr.portNotFound =>
              ⟨IterOut.completed, { st1 with recyclable := dictDel st1.recyclable port_id },
               calls⟩
          | some NErr.clientError =>
              ⟨IterOut.completed, st1, calls⟩
          | none =>
              ⟨IterOut.completed, { st1 with recyclable := dictDel st1.recyclable port_id },
               calls⟩

/-- One iteration of the for loop in NestedVIFPool._return_ports_to_pool.
Trunk resolution happens outside the try block: when the trunk id is not
cached and the driver lookup raises, the exception propagates and kills
the loop. -/
def nested_return_one (cfg : Config) (e : IterEnv) (st : PoolState)
    (port_id : PortId) (pool_key : PoolKey) : SweepStep :=
  if cfg.ports_pool_max = 0 ∨ get_pool_size st pool_key < cfg.ports_pool_max then
    match e.updateRes with
    | some _ =>
        ⟨IterOut.completed, st, [PCall.updatePort port_id]⟩
    | none =>
        ⟨IterOut.completed,
         { st with
             available := dictSet st.available pool_key (getPool st pool_key ++ [port_id]),
             recyclable := dictDel st.recyclable port_id },
         [PCall.updatePort port_id]⟩
  else
    match dictGet st.known_trunk_ids pool_key with
    | some trunk_id => nested_delete_branch e st port_id trunk_id []
    | none =>
      match e.trunkRes with
      | none =>
          ⟨IterOut.raised PyErr.neutronClientError, st, [PCall.trunkResolve pool_key]⟩
      | some trunk_id =>
          nested_delete_branch e
            { st with known_trunk_ids := dictSet st.known_trunk_ids pool_key trunk_id }
            port_id trunk_id [PCall.trunkResolve pool_key]

/-- Fold one reclamation sweep over the snapshot entries, stopping at the
first iteration whose exception propagates. -/
def neutron_sweep_go (cfg : Config) (envf : PortId → IterEnv) :
    List (PortId × PoolKey) → PoolState → List PCall → SweepStep
  | [], st, acc => ⟨IterOut.completed, st, acc⟩
  | (port_id, pool_key) :: rest, st, acc =>
    let s := neutron_return_one cfg (envf port_id) st port_id pool_key
    match s.out with
    | IterOut.completed => neutron_sweep_go cfg envf rest s.state (acc ++ s.calls)
    | IterOut.raised err => ⟨IterOut.raised err, s.state, acc ++ s.calls⟩

/-- One pass of the while-True body of
NeutronVIFPool._return_ports_to_pool: iterate over a copy of
_recyclable_ports. -/
def neutron_sweep (cfg : Config) (envf : PortId → IterEnv) (st : PoolState) : SweepStep :=
  neutron_sweep_go cfg envf st.recyclable st []

def nested_sweep_go (cfg : Config) (envf : PortId → IterEnv) :
    List (PortId × PoolKey) → PoolState → List PCall → SweepStep
  | [], st, acc => ⟨IterOut.completed, st, acc⟩
  | (port_id, pool_key) :: rest, st, acc =>
    let s := nested_return_one cfg (envf port_id) st port_id pool_key
    match s.out with
    | IterOut.completed => nested_sweep_go cfg envf rest s.state (acc ++ s.calls)
    | IterOut.raised err => ⟨IterOut.raised err, s.state, acc ++ s.calls⟩

/-- One pass of the while-True body of
NestedVIFPool._return_ports_to_pool. -/
def nested_sweep (cfg : Config) (envf : PortId → IterEnv) (st : PoolState) : SweepStep :=
  nested_sweep_go cfg envf st.recyclable st []

/-- The id sits in some entry of an available-pools dict. -/
def inAvailL (d : List (PoolKey × List PortId)) (id : PortId) : Prop :=
  ∃ e ∈ d, id ∈ e.2

/-- The id sits in some available pool of the state. -/
def inAvail (st : PoolState) (id : PortId) : Prop :=
  inAvailL st.available id

/-- The id is a key of the recyclable queue. -/
def recycMem (st : PoolState) (id : PortId) : Prop :=
  ∃ e ∈ st.recyclable, e.1 = id

/-- No id is both in an available pool and in the recyclable queue. -/
def availRecycDisjoint (st : PoolState) : Prop :=
  ∀ e ∈ st.recyclable, ¬ inAvailL st.available e.1

/-- An id sits in the pools of at most one key. -/
def atMostOnePoolL (d : List (PoolKey × List PortId)) : Prop :=
  ∀ e ∈ d, ∀ f ∈ d, ∀ id, id ∈ e.2 → id ∈ f.2 → e.1 = f.1

/-- Spec invariant 1: a resource id is a member of at most one of the
available pools and the recyclable queue. -/
def uniqueLocation (st : PoolState) : Prop :=
  availRecycDisjoint st ∧ atMostOnePoolL st.available

/-- Spec invariant 2: every id in an available pool or in the recyclable
queue is a key of _existing_vifs. -/
def existingCovers (st : PoolState) : Prop :=
  (∀ e ∈ st.recyclable, (dictGet st.existing e.1).isSome = true) ∧
  (∀ p ∈ st.available, ∀ id ∈ p.2, (dictGet st.existing id).isSome = true)

/-- The available-pools dict has no duplicate keys (always true of a
Python dict). -/
def availKeysNodup (st : PoolState) : Prop :=
  (st.available.map Prod.fst).Nodup

section DictLemmas

variable {α : Type} {β : Type} [DecidableEq α]

theorem dictGet_dictSet_self (d : List (α × β)) (k : α) (v : β) :
    dictGet (dictSet d k v) k = some v := by
  induction d with
  | nil => simp [dictSet, dictGet]
  | cons e t ih =>
    obtain ⟨a, b⟩ := e
    by_cases h : a = k
    · simp [dictSet, dictGet, h]
    · simp [dictSet, dictGet, h, ih]

theorem dictGet_dictSet_ne (d : List (α × β)) (k : α) (v : β) (x : α) (hx : x ≠ k) :
    dictGet (dictSet d k v) x = dictGet d x := by
  have hkx : k ≠ x := Ne.symm hx
  induction d with
  | nil => simp [dictSet, dictGet, hkx]
  | cons e t ih =>
    obtain ⟨a, b⟩ := e
    by_cases h : a = k
    · subst h
      simp [dictSet, dictGet, hkx]
    · simp only [dictSet, if_neg h]
      by_cases h2 : a = x
      · simp [dictGet, h2]
      · simp [dictGet, h2, ih]

theorem mem_dictSet_elim {d : List (α × β)} {k : α} {v : β} {e : α × β}
    (he : e ∈ dictSet d k v) : e = (k, v) ∨ e ∈ d := by
  induction d with
  | nil => simpa [dictSet] using he
  | cons f t ih =>
    obtain ⟨a, b⟩ := f
    by_cases h : a = k
    · rcases (by simpa [dictSet, h] using he : e = (k, v) ∨ e ∈ t) with h1 | h1
      · exact Or.inl h1
      · exact Or.inr (List.mem_cons_of_mem _ h1)
    · rcases (by simpa [dictSet, h] using he : e = (a, b) ∨ e ∈ dictSet t k v) with h1 | h1
      · exact Or.inr (h1 ▸ List.mem_cons_self _ _)
      · rcases ih h1 with h2 | h2
        · exact Or.inl h2
        · exact Or.inr (List.mem_cons_of_mem _ h2)

theorem mem_dictSet_nodup {d : List (α × β)} {k : α} {v : β} {e : α × β}
    (hnd : (d.map Prod.fst).Nodup) (he : e ∈ dictSet d k v) :
    e = (k, v) ∨ (e ∈ d ∧ e.1 ≠ k) := by
  induction d with
  | nil => simpa [dictSet] using he
  | cons f t ih =>
    obtain ⟨a, b⟩ := f
    have hnd' : (t.map Prod.fst).Nodup := (List.nodup_cons.mp hnd).2
    have hka : a ∉ t.map Prod.fst := (List.nodup_cons.mp hnd).1
    by_cases h : a = k
    · subst h
      rcases (by simpa [dictSet] using he : e = (a, v) ∨ e ∈ t) with h1 | h1
      · exact Or.inl h1
      · refine Or.inr ⟨List.mem_cons_of_mem _ h1, fun hek => ?_⟩
        exact hka (hek ▸ List.mem_map_of_mem Prod.fst h1)
    · rcases (by simpa [dictSet, h] using he : e = (a, b) ∨ e ∈ dictSet t k v) with h1 | h1
      · exact Or.inr ⟨h1 ▸ List.mem_cons_self _ _, by simp [h1, h]⟩
      · rcases ih hnd' h1 with h2 | h2
        · exact Or.inl h2
        · exact Or.inr ⟨List.mem_cons_of_mem _ h2.1, h2.2⟩

theorem dictGet_some_mem {d : List (α × β)} {k : α} {b : β}
    (h : dictGet d k = some b) : (k, b) ∈ d := by
  induction d with
  | nil => simp [dictGet] at h
  | cons f t ih =>
    obtain ⟨a, c⟩ := f
    by_cases ha : a = k
    · subst ha
      have : c = b := by simpa [dictGet] using h
      exact this ▸ List.mem_cons_self _ _
    · exact List.mem_cons_of_mem _ (ih (by simpa [dictGet, ha] using h))

theorem mem_dictDel {d : List (α × β)} {k : α} {e : α × β} :
    e ∈ dictDel d k ↔ e ∈ d ∧ e.1 ≠ k := by
  induction d with
  | nil => simp [dictDel]
  | cons f t ih =>
    obtain ⟨a, b⟩ := f
    by_cases h : a = k
    · subst h
      rw [show dictDel ((a, b) :: t) a = dictDel t a from by simp [dictDel]]
      rw [ih]
      simp only [List.mem_cons]
      constructor
      · rintro ⟨h1, h2⟩
        exact ⟨Or.inr h1, h2⟩
      · rintro ⟨h1 | h1, h2⟩
        · exact absurd (by simp [h1]) h2
        · exact ⟨h1, h2⟩
    · rw [show dictDel ((a, b) :: t) k = (a, b) :: dictDel t k from by simp [dictDel, h]]
      simp only [List.mem_cons, ih]
      constructor
      · rintro (rfl | ⟨h1, h2⟩)
        · exact ⟨Or.inl rfl, by simpa using h⟩
        · exact ⟨Or.inr h1, h2⟩
      · rintro ⟨rfl | h1, h2⟩
        · exact Or.inl rfl
        · exact Or.inr ⟨h1, h2⟩

theorem dictGet_dictDel_self (d : List (α × β)) (k : α) :
    dictGet (dictDel d k) k = none := by
  induction d with
  | nil => simp [dictDel, dictGet]
  | cons f t ih =>
    obtain ⟨a, b⟩ := f
    by_cases h : a = k
    · simp [dictDel, h, ih]
    · simp [dictDel, dictGet, h, ih]

theorem dictGet_dictDel_ne (d : List (α × β)) (k : α) (x : α) (hx : x ≠ k) :
    dictGet (dictDel d k) x = dictGet d x := by
  have hkx : k ≠ x := Ne.symm hx
  induction d with
  | nil => simp [dictDel]
  | cons f t ih =>
    obtain ⟨a, b⟩ := f
    by_cases h : a = k
    · subst h
      simp [dictDel, dictGet, hkx, ih]
    · simp only [dictDel, if_neg h]
      by_cases h2 : a = x
      · simp [dictGet, h2]
      · simp [dictGet, h2, ih]

theorem isSome_dictGet_dictSet (d : List (α × β)) (k : α) (v : β) (x : α)
    (h : (dictGet d x).isSome = true) : (dictGet (dictSet d k v) x).isSome = true := by
  by_cases hx : x = k
  · subst hx
    simp [dictGet_dictSet_self]
  · rwa [dictGet_dictSet_ne d k v x hx]

end DictLemmas

theorem mem_pool_cases {d : List (PoolKey × List PortId)} {k : PoolKey} {x : PortId}
    (hx : x ∈ (dictGet d k).getD []) : ∃ b, dictGet d k = some b ∧ x ∈ b := by
  cases h : dictGet d k with
  | none => simp [h] at hx
  | some b => exact ⟨b, rfl, by simpa [h] using hx⟩

theorem inAvailL_of_mem_pool {d : List (PoolKey × List PortId)} {k : PoolKey} {x : PortId}
    (hx : x ∈ (dictGet d k).getD []) : inAvailL d x := by
  obtain ⟨b, hb, hxb⟩ := mem_pool_cases hx
  exact ⟨(k, b), dictGet_some_mem hb, hxb⟩

theorem inAvailL_set_elim {d : List (PoolKey × List PortId)} {k : PoolKey}
    {l : List PortId} {x : PortId} (h : inAvailL (dictSet d k l) x) :
    x ∈ l ∨ inAvailL d x := by
  obtain ⟨e, he, hx⟩ := h
  rcases mem_dictSet_elim he with rfl | he'
  · exact Or.inl hx
  · exact Or.inr ⟨e, he', hx⟩

theorem atMostOnePoolL_set {d : List (PoolKey × List PortId)} {k : PoolKey}
    {l : List PortId} (hA : atMostOnePoolL d)
    (hl : ∀ x ∈ l, x ∈ (dictGet d k).getD [] ∨ ∀ f ∈ d, x ∈ f.2 → f.1 = k) :
    atMostOnePoolL (dictSet d k l) := by
  intro e he f hf x hxe hxf
  rcases mem_dictSet_elim he with rfl | he' <;> rcases mem_dictSet_elim hf with h1 | hf'
  · rw [h1]
  · rcases hl x hxe with hp | hall
    · obtain ⟨b, hb, hxb⟩ := mem_pool_cases hp
      simpa using hA (k, b) (dictGet_some_mem hb) f hf' x hxb hxf
    · simpa using (hall f hf' hxf).symm
  · rw [h1] at hxf ⊢
    rcases hl x hxf with hp | hall
    · obtain ⟨b, hb, hxb⟩ := mem_pool_cases hp
      simpa using hA e he' (k, b) (dictGet_some_mem hb) x hxe hxb
    · simpa using hall e he' hxe
  · exact hA e he' f hf' x hxe hxf

theorem uniqueLocation_of_fields (st st' : PoolState)
    (hav : st'.available = st.available)
    (hrc : ∀ e ∈ st'.recyclable, e ∈ st.recyclable)
    (hu : uniqueLocation st) : uniqueLocation st' := by
  constructor
  · intro e he
    rw [hav]
    exact hu.1 e (hrc e he)
  · rw [hav]
    exact hu.2

theorem uniqueLocation_set_dropLast (st : PoolState) (key : PoolKey)
    (hu : uniqueLocation st) :
    uniqueLocation
      { st with available := dictSet st.available key ((getPool st key).dropLast) } := by
  constructor
  · intro e he hin
    rcases inAvailL_set_elim hin with hmem | hold
    · exact hu.1 e he (inAvailL_of_mem_pool ((List.dropLast_sublist _).subset hmem))
    · exact hu.1 e he hold
  · apply atMostOnePoolL_set hu.2
    intro x hx
    exact Or.inl ((List.dropLast_sublist _).subset hx)

theorem uniqueLocation_clean_move (st : PoolState) (key : PoolKey) (id : PortId)
    (hu : uniqueLocation st) (hid : ¬ inAvailL st.available id) :
    uniqueLocation
      { st with available := dictSet st.available key (getPool st key ++ [id]),
                recyclable := dictDel st.recyclable id } := by
  constructor
  · intro e he hin
    have hmd := mem_dictDel.mp he
    rcases inAvailL_set_elim hin with hmem | hold
    · rcases List.mem_append.mp hmem with hp | hs
      · exact hu.1 e hmd.1 (inAvailL_of_mem_pool hp)
      · exact hmd.2 (by simpa using hs)
    · exact hu.1 e hmd.1 hold
  · apply atMostOnePoolL_set hu.2
    intro x hx
    rcases List.mem_append.mp hx with hp | hs
    · exact Or.inl hp
    · refine Or.inr (fun f hf hxf => ?_)
      have hxid : x = id := by simpa using hs
      exact absurd ⟨f, hf, hxid ▸ hxf⟩ hid

theorem uniqueLocation_mark (st : PoolState) (key : PoolKey) (id : PortId)
    (hu : uniqueLocation st) (hid : ¬ inAvailL st.available id) :
    uniqueLocation { st with recyclable := dictSet st.recyclable id key } := by
  constructor
  · intro e he hin
    rcases mem_dictSet_elim he with rfl | he'
    · exact hid hin
    · exact hu.1 e he' hin
  · exact hu.2

theorem foldl_register_misc (key : PoolKey) (vifs : List Vif) :
    ∀ s : PoolState,
      (vifs.foldl (register_vif key) s).recyclable = s.recyclable ∧
      (vifs.foldl (register_vif key) s).last_update = s.last_update ∧
      (vifs.foldl (register_vif key) s).known_trunk_ids = s.known_trunk_ids := by
  induction vifs with
  | nil => intro s; exact ⟨rfl, rfl, rfl⟩
  | cons v t ih =>
    intro s
    simpa [List.foldl_cons, register_vif] using ih (register_vif key s v)

theorem foldl_register_getPool (key : PoolKey) (vifs : List Vif) :
    ∀ s : PoolState,
      getPool (vifs.foldl (register_vif key) s) key = getPool s key ++ vifs.map Vif.id := by
  induction vifs with
  | nil => intro s; simp
  | cons v t ih =>
    intro s
    have h1 : getPool (register_vif key s v) key = getPool s key ++ [v.id] := by
      simp [register_vif, getPool, dictGet_dictSet_self]
    simp [List.foldl_cons, ih (register_vif key s v), h1]

theorem foldl_register_existing_mono (key : PoolKey) (vifs : List Vif) (i : PortId) :
    ∀ s : PoolState, (dictGet s.existing i).isSome = true →
      (dictGet (vifs.foldl (register_vif key) s).existing i).isSome = true := by
  induction vifs with
  | nil => intro s h; exact h
  | cons v t ih =>
    intro s h
    exact ih (register_vif key s v) (isSome_dictGet_dictSet _ _ _ _ h)

theorem foldl_register_existing_elim (key : PoolKey) (vifs : List Vif) (i : PortId) :
    ∀ s : PoolState,
      (dictGet (vifs.foldl (register_vif key) s).existing i).isSome = true →
      (dictGet s.existing i).isSome = true ∨ i ∈ vifs.map Vif.id := by
  induction vifs with
  | nil => intro s h; exact Or.inl h
  | cons v t ih =>
    intro s h
    rcases ih (register_vif key s v) h with h1 | h1
    · by_cases hi : i = v.id
      · exact Or.inr (by simp [hi])
      · rw [show (register_vif key s v).existing = dictSet s.existing v.id v from rfl,
            dictGet_dictSet_ne _ _ _ _ hi] at h1
        exact Or.inl h1
    · exact Or.inr (by simp [h1, List.mem_cons])

theorem foldl_register_existing_stable (key : PoolKey) (vifs : List Vif) (i : PortId)
    (hi : i ∉ vifs.map Vif.id) :
    ∀ s : PoolState,
      dictGet (vifs.foldl (register_vif key) s).existing i = dictGet s.existing i := by
  induction vifs with
  | nil => intro s; rfl
  | cons v t ih =>
    intro s
    have hiv : i ≠ v.id := by
      intro h
      exact hi (by simp [h])
    have hit : i ∉ t.map Vif.id := fun h => hi (by simp [h])
    rw [List.foldl_cons, ih hit (register_vif key s v),
        show (register_vif key s v).existing = dictSet s.existing v.id v from rfl,
        dictGet_dictSet_ne _ _ _ _ hiv]

theorem foldl_register_existing_mem (key : PoolKey) (vifs : List Vif)
    (hnd : (vifs.map Vif.id).Nodup) :
    ∀ s : PoolState, ∀ v ∈ vifs,
      dictGet (vifs.foldl (register_vif key) s).existing v.id = some v := by
  induction vifs with
  | nil => intro s v hv; simp at hv
  | cons w t ih =>
    intro s v hv
    have hnd' : (t.map Vif.id).Nodup := (List.nodup_cons.mp (by simpa using hnd)).2
    rcases List.mem_cons.mp hv with rfl | hv'
    · have hw : v.id ∉ t.map Vif.id := (List.nodup_cons.mp (by simpa using hnd)).1
      rw [List.foldl_cons, foldl_register_existing_stable key t v.id hw,
          show (register_vif key s v).existing = dictSet s.existing v.id v from rfl,
          dictGet_dictSet_self]
    · exact ih hnd' (register_vif key s w) v hv'

theorem foldl_register_inAvail_elim (key : PoolKey) (vifs : List Vif) (x : PortId) :
    ∀ s : PoolState, inAvailL (vifs.foldl (register_vif key) s).available x →
      x ∈ vifs.map Vif.id ∨ inAvailL s.available x := by
  induction vifs with
  | nil => intro s h; exact Or.inr h
  | cons v t ih =>
    intro s h
    rcases ih (register_vif key s v) h with h1 | h1
    · exact Or.inl (by simp [h1, List.mem_cons])
    · rcases inAvailL_set_elim h1 with hm | hold
      · rcases List.mem_append.mp hm with hp | hs
        · exact Or.inr (inAvailL_of_mem_pool hp)
        · have hxv : x = v.id := by simpa using hs
          exact Or.inl (by simp [hxv])
      · exact Or.inr hold

theorem foldl_register_atMostOne (key : PoolKey) (vifs : List Vif) :
    ∀ s : PoolState, atMostOnePoolL s.available →
      (∀ x ∈ vifs.map Vif.id, ∀ f ∈ s.available, x ∈ f.2 → f.1 = key) →
      atMostOnePoolL (vifs.foldl (register_vif key) s).available := by
  induction vifs with
  | nil => intro s hA _; exact hA
  | cons v t ih =>
    intro s hA honly
    apply ih (register_vif key s v)
    · apply atMostOnePoolL_set hA
      intro x hx
      rcases List.mem_append.mp hx with hp | hs
      · exact Or.inl hp
      · refine Or.inr (fun f hf hxf => ?_)
        have hxv : x = v.id := by simpa using hs
        exact honly x (by simp [hxv]) f hf hxf
    · intro x hx f hf hxf
      rcases mem_dictSet_elim hf with rfl | hf'
      · rfl
      · exact honly x (by simp [hx, List.mem_cons]) f hf' hxf

theorem gpfp_state_cases (cfg : Config) (st : PoolState) (key : PoolKey)
    (updateRes : Option NErr) :
    (get_port_from_pool cfg st key updateRes).state = st ∨
    (get_port_from_pool cfg st key updateRes).state =
      { st with available := dictSet st.available key (getPool st key).dropLast } := by
  unfold get_port_from_pool
  dsimp only
  split
  · exact Or.inl rfl
  · split
    · exact Or.inr rfl
    · repeat' split
      all_goals exact Or.inr rfl

theorem gpfp_uniqueLocation (cfg : Config) (st : PoolState) (key : PoolKey)
    (updateRes : Option NErr) (hu : uniqueLocation st) :
    uniqueLocation (get_port_from_pool cfg st key updateRes).state := by
  rcases gpfp_state_cases cfg st key updateRes with h | h <;> rw [h]
  · exact hu
  · exact uniqueLocation_set_dropLast st key hu

theorem release_uniqueLocation (st : PoolState) (pod : Pod) (vif : Vif)
    (project_id : ProjectId) (sgs : List SecGroup)
    (hu : uniqueLocation st) (hid : ¬ inAvail st vif.id) :
    uniqueLocation (release_vif st pod vif project_id sgs).state := by
  unfold release_vif
  dsimp only
  split
  · exact hu
  · split
    · exact uniqueLocation_mark st _ vif.id hu hid
    · exact uniqueLocation_mark { st with existing := dictSet st.existing vif.id vif } _ vif.id
        (uniqueLocation_of_fields st _ rfl (fun e he => he) hu) hid

theorem populate_uniqueLocation (cfg : Config) (st : PoolState) (key : PoolKey)
    (now : Int) (reply : Option (List Vif)) (hu : uniqueLocation st)
    (hfr : ∀ vifs, reply = some vifs → ∀ v ∈ vifs, ¬ inAvail st v.id ∧ ¬ recycMem st v.id) :
    uniqueLocation (populate_pool cfg st key now reply).state := by
  have hu1 : uniqueLocation { st with last_update := dictSet st.last_update key now } :=
    uniqueLocation_of_fields st _ rfl (fun e he => he) hu
  unfold populate_pool
  dsimp only
  split
  · exact hu
  · split
    · split
      · exact hu1
      · rename_i vifs
        refine ⟨?_, ?_⟩
        · intro e he hin
          have hrc : e ∈ st.recyclable := by
            have hms := (foldl_register_misc key vifs
              { st with last_update := dictSet st.last_update key now }).1
            exact hms ▸ he
          rcases foldl_register_inAvail_elim key vifs e.1 _ hin with hx | hold
          · obtain ⟨v, hv, hveq⟩ := List.mem_map.mp hx
            exact (hfr vifs rfl v hv).2 ⟨e, hrc, hveq.symm⟩
          · exact hu1.1 e hrc hold
        · apply foldl_register_atMostOne key vifs _ hu1.2
          intro x hx f hf hxf
          obtain ⟨v, hv, hveq⟩ := List.mem_map.mp hx
          exact absurd ⟨f, hf, hveq ▸ hxf⟩ ((hfr vifs rfl v hv).1)
    · exact hu1

theorem flat_iter_uniqueLocation (cfg : Config) (e : IterEnv) (st : PoolState)
    (port_id : PortId) (pool_key : PoolKey)
    (hu : uniqueLocation st) (hmem : (port_id, pool_key) ∈ st.recyclable) :
    uniqueLocation (neutron_return_one cfg e st port_id pool_key).state := by
  have hid : ¬ inAvailL st.available port_id := hu.1 (port_id, pool_key) hmem
  unfold neutron_return_one
  dsimp only
  split
  · split
    · exact hu
    · exact uniqueLocation_clean_move st pool_key port_id hu hid
  · split
    · exact uniqueLocation_of_fields st _ rfl (fun f hf => (mem_dictDel.mp hf).1) hu
    · split
      · exact uniqueLocation_of_fields st _ rfl (fun f hf => (mem_dictDel.mp hf).1) hu
      · exact uniqueLocation_of_fields st _ rfl (fun f hf => hf) hu
      · exact uniqueLocation_of_fields st _ rfl (fun f hf => (mem_dictDel.mp hf).1) hu

theorem nested_delete_uniqueLocation (e : IterEnv) (st : PoolState)
    (port_id : PortId) (trunk_id : Nat) (pre : List PCall)
    (hu : uniqueLocation st) :
    uniqueLocation (nested_delete_branch e st port_id trunk_id pre).state := by
  unfold nested_delete_branch
  split
  · exact uniqueLocation_of_fields st _ rfl (fun f hf => (mem_dictDel.mp hf).1) hu
  · exact hu
  · split
    · exact uniqueLocation_of_fields st _ rfl (fun f hf => (mem_dictDel.mp hf).1) hu
    · split
      · exact uniqueLocation_of_fields st _ rfl (fun f hf => (mem_dictDel.mp hf).1) hu
      · exact uniqueLocation_of_fields st _ rfl (fun f hf => hf) hu
      · exact uniqueLocation_of_fields st _ rfl (fun f hf => (mem_dictDel.mp hf).1) hu

theorem nested_iter_uniqueLocation (cfg : Config) (e : IterEnv) (st : PoolState)
    (port_id : PortId) (pool_key : PoolKey)
    (hu : uniqueLocation st) (hmem : (port_id, pool_key) ∈ st.recyclable) :
    uniqueLocation (nested_return_one cfg e st port_id pool_key).state := by
  have hid : ¬ inAvailL st.available port_id := hu.1 (port_id, pool_key) hmem
  unfold nested_return_one
  split
  · split
    · exact hu
    · exact uniqueLocation_clean_move st pool_key port_id hu hid
  · split
    · exact nested_delete_uniqueLocation _ _ _ _ _ hu
    · split
      · exact hu
      · exact nested_delete_uniqueLocation _ _ _ _ _
          (uniqueLocation_of_fields st _ rfl (fun f hf => hf) hu)

theorem existingCovers_of_fields (st st' : PoolState)
    (hav : st'.available = st.available)
    (hex : st'.existing = st.existing)
    (hrc : ∀ e ∈ st'.recyclable, e ∈ st.recyclable)
    (hc : existingCovers st) : existingCovers st' := by
  refine ⟨?_, ?_⟩
  · intro f hf
    rw [hex]
    exact hc.1 f (hrc f hf)
  · intro p hp id hid
    rw [hex]
    rw [hav] at hp
    exact hc.2 p hp id hid

theorem foldl_register_existing_ids (key : PoolKey) (vifs : List Vif) (i : PortId)
    (hi : i ∈ vifs.map Vif.id) :
    ∀ s : PoolState, (dictGet (vifs.foldl (register_vif key) s).existing i).isSome = true := by
  induction vifs with
  | nil => simp at hi
  | cons v t ih =>
    intro s
    by_cases hv : i = v.id
    · rw [List.foldl_cons]
      apply foldl_register_existing_mono
      rw [show (register_vif key s v).existing = dictSet s.existing v.id v from rfl,
          hv, dictGet_dictSet_self]
      rfl
    · have hit : i ∈ t.map Vif.id := by
        rcases List.mem_map.mp hi with ⟨a, ha, hai⟩
        rcases List.mem_cons.mp ha with rfl | ha'
        · exact absurd hai.symm hv
        · exact List.mem_map.mpr ⟨a, ha', hai⟩
      rw [List.foldl_cons]
      exact ih hit (register_vif key s v)

theorem existingCovers_recdel (st : PoolState) (pid : PortId)
    (hc : existingCovers st) :
    existingCovers { st with recyclable := dictDel st.recyclable pid } :=
  existingCovers_of_fields st _ rfl rfl (fun _ hf => (mem_dictDel.mp hf).1) hc

theorem existingCovers_delete (st : PoolState) (pid : PortId)
    (hc : existingCovers st) (hnid : ¬ inAvailL st.available pid) :
    existingCovers { st with
      existing := dictDel st.existing pid,
      recyclable := dictDel st.recyclable pid } := by
  refine ⟨?_, ?_⟩
  · intro f hf
    obtain ⟨hf1, hf2⟩ := mem_dictDel.mp hf
    dsimp only
    rw [dictGet_dictDel_ne st.existing pid f.1 hf2]
    exact hc.1 f hf1
  · intro p hp id hid
    have hne : id ≠ pid := fun h => hnid ⟨p, hp, h ▸ hid⟩
    dsimp only
    rw [dictGet_dictDel_ne st.existing pid id hne]
    exact hc.2 p hp id hid

theorem existingCovers_clean_move (st : PoolState) (key : PoolKey) (pid : PortId)
    (hc : existingCovers st) (hpid : (dictGet st.existing pid).isSome = true) :
    existingCovers { st with
      available := dictSet st.available key (getPool st key ++ [pid]),
      recyclable := dictDel st.recyclable pid } := by
  refine ⟨?_, ?_⟩
  · intro f hf
    exact hc.1 f (mem_dictDel.mp hf).1
  · intro p hp id hid
    rcases mem_dictSet_elim hp with rfl | hp'
    · rcases List.mem_append.mp hid with h1 | h2
      · obtain ⟨b, hb, hxb⟩ := mem_pool_cases h1
        exact hc.2 (key, b) (dictGet_some_mem hb) id hxb
      · have hidp : id = pid := by simpa using h2
        exact hidp ▸ hpid
    · exact hc.2 p hp' id hid

theorem flat_iter_existingCovers (cfg : Config) (e : IterEnv) (st : PoolState)
    (port_id : PortId) (pool_key : PoolKey)
    (hc : existingCovers st) (hdis : availRecycDisjoint st)
    (hmem : (port_id, pool_key) ∈ st.recyclable)
    (hout : (neutron_return_one cfg e st port_id pool_key).out = IterOut.completed) :
    existingCovers (neutron_return_one cfg e st port_id pool_key).state := by
  have hnid : ¬ inAvailL st.available port_id := hdis (port_id, pool_key) hmem
  by_cases hc1 : cfg.ports_pool_max = 0 ∨ get_pool_size st pool_key < cfg.ports_pool_max
  · cases h2 : e.updateRes with
    | some nerr =>
      simp only [neutron_return_one, if_pos hc1, h2]
      exact hc
    | none =>
      simp only [neutron_return_one, if_pos hc1, h2]
      exact existingCovers_clean_move st pool_key port_id hc (hc.1 _ hmem)
  · cases h3 : dictGet st.existing port_id with
    | none =>
      simp only [neutron_return_one, if_neg hc1, h3]
      exact existingCovers_recdel st port_id hc
    | some vif =>
      cases h4 : e.deleteRes with
      | none =>
        simp only [neutron_return_one, if_neg hc1, h3, h4]
        exact existingCovers_delete st port_id hc hnid
      | some nerr =>
        cases nerr with
        | portNotFound =>
          simp only [neutron_return_one, if_neg hc1, h3, h4]
          exact existingCovers_delete st port_id hc hnid
        | clientError =>
          simp only [neutron_return_one, if_neg hc1, h3, h4] at hout
          exact absurd hout (by simp)

theorem nested_delete_existingCovers (e : IterEnv) (st : PoolState)
    (port_id : PortId) (trunk_id : Nat) (pre : List PCall)
    (hc : existingCovers st) (hnid : ¬ inAvailL st.available port_id)
    (hdel : e.deleteRes ≠ some NErr.clientError) :
    existingCovers (nested_delete_branch e st port_id trunk_id pre).state := by
  cases h1 : e.removeRes with
  | some nerr =>
    cases nerr with
    | portNotFound =>
      simp only [nested_delete_branch, h1]
      exact existingCovers_recdel st port_id hc
    | clientError =>
      simp only [nested_delete_branch, h1]
      exact hc
  | none =>
    cases h2 : dictGet st.existing port_id with
    | none =>
      simp only [nested_delete_branch, h1, h2]
      exact existingCovers_recdel st port_id hc
    | some vif =>
      cases h3 : e.deleteRes with
      | none =>
        simp only [nested_delete_branch, h1, h2, h3]
        exact existingCovers_delete st port_id hc hnid
      | some nerr =>
        cases nerr with
        | portNotFound =>
          simp only [nested_delete_branch, h1, h2, h3]
          exact existingCovers_delete st port_id hc hnid
        | clientError => exact absurd h3 hdel

theorem nested_iter_existingCovers (cfg : Config) (e : IterEnv) (st : PoolState)
    (port_id : PortId) (pool_key : PoolKey)
    (hc : existingCovers st) (hdis : availRecycDisjoint st)
    (hmem : (port_id, pool_key) ∈ st.recyclable)
    (hdel : e.deleteRes ≠ some NErr.clientError) :
    existingCovers (nested_return_one cfg e st port_id pool_key).state := by
  have hnid : ¬ inAvailL st.available port_id := hdis (port_id, pool_key) hmem
  by_cases hc1 : cfg.ports_pool_max = 0 ∨ get_pool_size st pool_key < cfg.ports_pool_max
  · cases h2 : e.updateRes with
    | some nerr =>
      simp only [nested_return_one, if_pos hc1, h2]
      exact hc
    | none =>
      simp only [nested_return_one, if_pos hc1, h2]
      exact existingCovers_clean_move st pool_key port_id hc (hc.1 _ hmem)
  · cases h3 : dictGet st.known_trunk_ids pool_key with
    | some trunk_id =>
      simp only [nested_return_one, if_neg hc1, h3]
      exact nested_delete_existingCovers e st port_id trunk_id [] hc hnid hdel
    | none =>
      cases h4 : e.trunkRes with
      | none =>
        simp only [nested_return_one, if_neg hc1, h3, h4]
        exact hc
      | some trunk_id =>
        simp only [nested_return_one, if_neg hc1, h3, h4]
        exact nested_delete_existingCovers e _ port_id trunk_id _
          (existingCovers_of_fields st _ rfl rfl (fun _ hf => hf) hc) hnid hdel

theorem nested_delete_avail (e : IterEnv) (st : PoolState)
    (port_id : PortId) (trunk_id : Nat) (pre : List PCall) :
    (nested_delete_branch e st port_id trunk_id pre).state.available = st.available := by
  unfold nested_delete_branch
  repeat' split
  all_goals rfl

theorem flat_iter_at_capacity_avail (cfg : Config) (e : IterEnv) (st : PoolState)
    (port_id : PortId) (k2 : PoolKey)
    (hc1 : ¬ (cfg.ports_pool_max = 0 ∨ get_pool_size st k2 < cfg.ports_pool_max)) :
    (neutron_return_one cfg e st port_id k2).state.available = st.available := by
  unfold neutron_return_one
  rw [if_neg hc1]
  repeat' split
  all_goals rfl

theorem nested_iter_at_capacity_avail (cfg : Config) (e : IterEnv) (st : PoolState)
    (port_id : PortId) (k2 : PoolKey)
    (hc1 : ¬ (cfg.ports_pool_max = 0 ∨ get_pool_size st k2 < cfg.ports_pool_max)) :
    (nested_return_one cfg e st port_id k2).state.available = st.available := by
  unfold nested_return_one
  rw [if_neg hc1]
  split
  · exact nested_delete_avail _ _ _ _ _
  · split
    · rfl
    · exact nested_delete_avail _ _ _ _ _

theorem flat_iter_size_le (cfg : Config) (e : IterEnv) (st : PoolState)
    (port_id : PortId) (k2 : PoolKey) (key : PoolKey)
    (hN : 0 < cfg.ports_pool_max)
    (h : get_pool_size st key ≤ cfg.ports_pool_max) :
    get_pool_size (neutron_return_one cfg e st port_id k2).state key ≤
      cfg.ports_pool_max := by
  by_cases hc1 : cfg.ports_pool_max = 0 ∨ get_pool_size st k2 < cfg.ports_pool_max
  · have hlt : get_pool_size st k2 < cfg.ports_pool_max := by
      rcases hc1 with h0 | h0
      · omega
      · exact h0
    cases h2 : e.updateRes with
    | some nerr =>
      simp only [neutron_return_one, if_pos hc1, h2]
      exact h
    | none =>
      simp only [neutron_return_one, if_pos hc1, h2]
      by_cases hk : key = k2
      · subst hk
        simp only [get_pool_size, getPool, dictGet_dictSet_self, Option.getD_some,
          List.length_append, List.length_cons, List.length_nil] at h hlt ⊢
        omega
      · simp only [get_pool_size, getPool, dictGet_dictSet_ne _ _ _ _ hk] at h ⊢
        exact h
  · rw [show get_pool_size (neutron_return_one cfg e st port_id k2).state key =
        get_pool_size st key from by
      simp only [get_pool_size, getPool, flat_iter_at_capacity_avail cfg e st port_id k2 hc1]]
    exact h

theorem nested_iter_size_le (cfg : Config) (e : IterEnv) (st : PoolState)
    (port_id : PortId) (k2 : PoolKey) (key : PoolKey)
    (hN : 0 < cfg.ports_pool_max)
    (h : get_pool_size st key ≤ cfg.ports_pool_max) :
    get_pool_size (nested_return_one cfg e st port_id k2).state key ≤
      cfg.ports_pool_max := by
  by_cases hc1 : cfg.ports_pool_max = 0 ∨ get_pool_size st k2 < cfg.ports_pool_max
  · have hlt : get_pool_size st k2 < cfg.ports_pool_max := by
      rcases hc1 with h0 | h0
      · omega
      · exact h0
    cases h2 : e.updateRes with
    | some nerr =>
      simp only [nested_return_one, if_pos hc1, h2]
      exact h
    | none =>
      simp only [nested_return_one, if_pos hc1, h2]
      by_cases hk : key = k2
      · subst hk
        simp only [get_pool_size, getPool, dictGet_dictSet_self, Option.getD_some,
          List.length_append, List.length_cons, List.length_nil] at h hlt ⊢
        omega
      · simp only [get_pool_size, getPool, dictGet_dictSet_ne _ _ _ _ hk] at h ⊢
        exact h
  · rw [show get_pool_size (nested_return_one cfg e st port_id k2).state key =
        get_pool_size st key from by
      simp only [get_pool_size, getPool, nested_iter_at_capacity_avail cfg e st port_id k2 hc1]]
    exact h

theorem flat_sweep_go_size (cfg : Config) (envf : PortId → IterEnv) (key : PoolKey)
    (hN : 0 < cfg.ports_pool_max) :
    ∀ (entries : List (PortId × PoolKey)) (st : PoolState) (acc : List PCall),
      get_pool_size st key ≤ cfg.ports_pool_max →
      get_pool_size (neutron_sweep_go cfg envf entries st acc).state key ≤
        cfg.ports_pool_max := by
  intro entries
  induction entries with
  | nil => intro st acc h; exact h
  | cons hd rest ih =>
    intro st acc h
    obtain ⟨pid, pk⟩ := hd
    have hstep := flat_iter_size_le cfg (envf pid) st pid pk key hN h
    unfold neutron_sweep_go
    dsimp only
    split
    · exact ih _ _ hstep
    · exact hstep

theorem nested_sweep_go_size (cfg : Config) (envf : PortId → IterEnv) (key : PoolKey)
    (hN : 0 < cfg.ports_pool_max) :
    ∀ (entries : List (PortId × PoolKey)) (st : PoolState) (acc : List PCall),
      get_pool_size st key ≤ cfg.ports_pool_max →
      get_pool_size (nested_sweep_go cfg envf entries st acc).state key ≤
        cfg.ports_pool_max := by
  intro entries
  induction entries with
  | nil => intro st acc h; exact h
  | cons hd rest ih =>
    intro st acc h
    obtain ⟨pid, pk⟩ := hd
    have hstep := nested_iter_size_le cfg (envf pid) st pid pk key hN h
    unfold nested_sweep_go
    dsimp only
    split
    · exact ih _ _ hstep
    · exact hstep

theorem populate_existingCovers (cfg : Config) (st : PoolState) (key : PoolKey)
    (now : Int) (reply : Option (List Vif)) (hc : existingCovers st) :
    existingCovers (populate_pool cfg st key now reply).state := by
  have hc1 : existingCovers { st with last_update := dictSet st.last_update key now } :=
    existingCovers_of_fields st _ rfl rfl (fun e he => he) hc
  unfold populate_pool
  dsimp only
  split
  · exact hc
  · split
    · split
      · exact hc1
      · rename_i vifs
        refine ⟨?_, ?_⟩
        · intro f hf
          have hf' : f ∈ st.recyclable := (foldl_register_misc key vifs
            { st with last_update := dictSet st.last_update key now }).1 ▸ hf
          exact foldl_register_existing_mono key vifs f.1 _ (hc1.1 f hf')
        · intro p hp id hid
          rcases foldl_register_inAvail_elim key vifs id _ ⟨p, hp, hid⟩ with hx | hold
          · exact foldl_register_existing_ids key vifs id hx _
          · obtain ⟨q, hq, hidq⟩ := hold
            exact foldl_register_existing_mono key vifs id _ (hc1.2 q hq id hidq)
    · exact hc1

theorem release_existingCovers (st : PoolState) (pod : Pod) (vif : Vif)
    (project_id : ProjectId) (sgs : List SecGroup) (hc : existingCovers st) :
    existingCovers (release_vif st pod vif project_id sgs).state := by
  unfold release_vif
  dsimp only
  split
  · exact hc
  · split
    · rename_i hex
      refine ⟨?_, ?_⟩
      · intro f hf
        rcases mem_dictSet_elim hf with rfl | hf'
        · exact hex
        · exact hc.1 f hf'
      · exact hc.2
    · refine ⟨?_, ?_⟩
      · intro f hf
        rcases mem_dictSet_elim hf with rfl | hf'
        · dsimp only
          rw [dictGet_dictSet_self]
          rfl
        · exact isSome_dictGet_dictSet _ _ _ _ (hc.1 f hf')
      · intro p hp id hid
        exact isSome_dictGet_dictSet _ _ _ _ (hc.2 p hp id hid)

instance (d : List (PoolKey × List PortId)) (id : PortId) : Decidable (inAvailL d id) := by
  unfold inAvailL
  infer_instance

instance (st : PoolState) (id : PortId) : Decidable (inAvail st id) := by
  unfold inAvail
  infer_instance

instance (st : PoolState) (id : PortId) : Decidable (recycMem st id) := by
  unfold recycMem
  infer_instance

instance (st : PoolState) : Decidable (availRecycDisjoint st) := by
  unfold availRecycDisjoint
  infer_instance

instance (d : List (PoolKey × List PortId)) : Decidable (atMostOnePoolL d) := by
  unfold atMostOnePoolL
  infer_instance

instance (st : PoolState) : Decidable (uniqueLocation st) := by
  unfold uniqueLocation
  infer_instance

instance (st : PoolState) : Decidable (existingCovers st) := by
  unfold existingCovers
  infer_instance

instance (st : PoolState) : Decidable (availKeysNodup st) := by
  unfold availKeysNodup
  infer_instance

/-- Sample pool key used by the concrete witnesses. -/
def kA : PoolKey := ⟨1, 1, [1]⟩

def vif5 : Vif := ⟨5, 50⟩

def vif6 : Vif := ⟨6, 60⟩

def vif9 : Vif := ⟨9, 90⟩

/-- A configuration with ports_pool_max = 1. -/
def cfgMax1 : Config := ⟨1, 1, 1, 20⟩

/-- A configuration with the pool limit disabled. -/
def cfgMax0 : Config := ⟨0, 5, 10, 20⟩

/-- A small populated state: pool kA holds ports 1 and 2, port 5 waits in
the recyclable queue, all three are registered in existing vifs. -/
def stW : PoolState :=
  ⟨[(kA, [1, 2])], [(1, ⟨1, 10⟩), (2, ⟨2, 20⟩), (5, vif5)], [(5, kA)], [], []⟩

/-- Iteration oracle: every neutron call succeeds. -/
def eOk : IterEnv := ⟨none, none, none, none⟩

/-- Iteration oracle: delete_port raises a generic NeutronClientException. -/
def eDelErr : IterEnv := ⟨none, some NErr.clientError, none, none⟩

/-- Iteration oracle: update_port raises a NeutronClientException. -/
def eUpdErr : IterEnv := ⟨some NErr.clientError, none, none, none⟩

/-- C2: for every state satisfying invariant 1 (an id is in at most one of
the available pools and the recyclable queue), the invariant is preserved
by the pop of _get_port_from_pool, by release_vif when the released vif is
in use (in neither structure), by the pushes of _populate_pool when the
provider returns fresh resources, and by one reclamation-loop iteration
of either variant on an entry of the recyclable queue. -/
theorem C2_unique_location_preserved (cfg : Config) (st : PoolState)
    (hu : uniqueLocation st) :
    (∀ key updateRes, uniqueLocation (get_port_from_pool cfg st key updateRes).state) ∧
    (∀ pod vif project_id sgs, ¬ inAvail st vif.id → ¬ recycMem st vif.id →
        uniqueLocation (release_vif st pod vif project_id sgs).state) ∧
    (∀ key now reply,
        (∀ vifs, reply = some vifs → ∀ v ∈ vifs, ¬ inAvail st v.id ∧ ¬ recycMem st v.id) →
        uniqueLocation (populate_pool cfg st key now reply).state) ∧
    (∀ e port_id pool_key, (port_id, pool_key) ∈ st.recyclable →
        uniqueLocation (neutron_return_one cfg e st port_id pool_key).state ∧
        uniqueLocation (nested_return_one cfg e st port_id pool_key).state) := by
  refine ⟨?_, ?_, ?_, ?_⟩
  · intro key updateRes
    exact gpfp_uniqueLocation cfg st key updateRes hu
  · intro pod vif project_id sgs hid _hrc
    exact release_uniqueLocation st pod vif project_id sgs hu hid
  · intro key now reply hfr
    exact populate_uniqueLocation cfg st key now reply hu hfr
  · intro e port_id pool_key hmem
    exact ⟨flat_iter_uniqueLocation cfg e st port_id pool_key hu hmem,
           nested_iter_uniqueLocation cfg e st port_id pool_key hu hmem⟩

theorem C2_unique_location_preserved_witness :
    uniqueLocation stW ∧
    uniqueLocation (neutron_return_one cfgMax0 eOk stW 5 kA).state ∧
    uniqueLocation (release_vif stW ⟨some 1⟩ ⟨8, 0⟩ 1 [1]).state :=
  ⟨by decide,
   ((C2_unique_location_preserved cfgMax0 stW (by decide)).2.2.2 eOk 5 kA (by decide)).1,
   (C2_unique_location_preserved cfgMax0 stW (by decide)).2.1 ⟨some 1⟩ ⟨8, 0⟩ 1 [1]
     (by decide) (by decide)⟩

/-- State for the C3 counterexample: pool kA is at the max of 1 (port 9),
port 5 waits in the recyclable queue, both are registered. -/
def stC3 : PoolState := ⟨[(kA, [9])], [(9, vif9), (5, vif5)], [(5, kA)], [], []⟩

/-- Nested twin of stC3 with the trunk id for kA already cached. -/
def stC3n : PoolState := ⟨[(kA, [9])], [(9, vif9), (5, vif5)], [(5, kA)], [], [(kA, 77)]⟩

theorem C3_existing_covers_counterexample :
    existingCovers stC3 ∧
    ¬ existingCovers (neutron_return_one cfgMax1 eDelErr stC3 5 kA).state ∧
    existingCovers stC3n ∧
    (nested_return_one cfgMax1 eDelErr stC3n 5 kA).out = IterOut.completed ∧
    ¬ existingCovers (nested_return_one cfgMax1 eDelErr stC3n 5 kA).state := by
  decide

/-- C3 (amended): every id in an available pool or the recyclable queue is
a key of existing vifs, preserved by populate, by release, and by every
reclamation iteration except when delete_port fails with a generic client
error (flat variant: the iteration raises; nested variant: it completes
via continue) — in that case the id leaves ExistingResources but stays in
RecyclableQueue. -/
theorem C3_existing_covers_amended (cfg : Config) (st : PoolState)
    (hc : existingCovers st) :
    (∀ key now reply, existingCovers (populate_pool cfg st key now reply).state) ∧
    (∀ pod vif project_id sgs, existingCovers (release_vif st pod vif project_id sgs).state) ∧
    (∀ e port_id pool_key, (port_id, pool_key) ∈ st.recyclable → availRecycDisjoint st →
      ((neutron_return_one cfg e st port_id pool_key).out = IterOut.completed →
         existingCovers (neutron_return_one cfg e st port_id pool_key).state) ∧
      (e.deleteRes ≠ some NErr.clientError →
         existingCovers (nested_return_one cfg e st port_id pool_key).state)) := by
  refine ⟨?_, ?_, ?_⟩
  · intro key now reply
    exact populate_existingCovers cfg st key now reply hc
  · intro pod vif project_id sgs
    exact release_existingCovers st pod vif project_id sgs hc
  · intro e port_id pool_key hmem hdis
    exact ⟨fun hout => flat_iter_existingCovers cfg e st port_id pool_key hc hdis hmem hout,
           fun hdel => nested_iter_existingCovers cfg e st port_id pool_key hc hdis hmem hdel⟩

theorem C3_existing_covers_amended_witness :
    existingCovers stW ∧
    existingCovers (release_vif stW ⟨some 1⟩ ⟨8, 0⟩ 1 [1]).state ∧
    existingCovers (neutron_return_one cfgMax0 eOk stW 5 kA).state :=
  ⟨by decide,
   (C3_existing_covers_amended cfgMax0 stW (by decide)).2.1 ⟨some 1⟩ ⟨8, 0⟩ 1 [1],
   ((C3_existing_covers_amended cfgMax0 stW (by decide)).2.2 eOk 5 kA (by decide)
     (by decide)).1 (by decide)⟩

/-- State for the C4 counterexample: port 5 is recyclable for kA and the
pool limit is disabled, so the iteration takes the cleaning path. -/
def stC4 : PoolState := ⟨[], [(5, vif5)], [(5, kA)], [], []⟩

theorem C4_entry_removed_counterexample :
    (neutron_return_one cfgMax0 eUpdErr stC4 5 kA).out = IterOut.completed ∧
    dictGet (neutron_return_one cfgMax0 eUpdErr stC4 5 kA).state.recyclable 5 = some kA := by
  decide

/-- C4 (amended): in a cleaning iteration (pool limit disabled or pool
below the max), the entry is removed from the recyclable queue when
update_port succeeds, but when update_port raises a client error the
iteration continues without removing the entry, leaving the state
unchanged — in both variants. -/
theorem C4_entry_removal_amended (cfg : Config) (e : IterEnv) (st : PoolState)
    (port_id : PortId) (pool_key : PoolKey)
    (hclean : cfg.ports_pool_max = 0 ∨ get_pool_size st pool_key < cfg.ports_pool_max) :
    (e.updateRes = none →
      (neutron_return_one cfg e st port_id pool_key).out = IterOut.completed ∧
      dictGet (neutron_return_one cfg e st port_id pool_key).state.recyclable port_id =
        none ∧
      (nested_return_one cfg e st port_id pool_key).out = IterOut.completed ∧
      dictGet (nested_return_one cfg e st port_id pool_key).state.recyclable port_id =
        none) ∧
    (∀ nerr, e.updateRes = some nerr →
      neutron_return_one cfg e st port_id pool_key =
        ⟨IterOut.completed, st, [PCall.updatePort port_id]⟩ ∧
      nested_return_one cfg e st port_id pool_key =
        ⟨IterOut.completed, st, [PCall.updatePort port_id]⟩) := by
  refine ⟨?_, ?_⟩
  · intro h2
    simp [neutron_return_one, nested_return_one, if_pos hclean, h2, dictGet_dictDel_self]
  · intro nerr h2
    simp [neutron_return_one, nested_return_one, if_pos hclean, h2]

theorem C4_entry_removal_amended_witness :
    (neutron_return_one cfgMax0 eOk stC4 5 kA).out = IterOut.completed ∧
    dictGet (neutron_return_one cfgMax0 eOk stC4 5 kA).state.recyclable 5 = none :=
  ⟨((C4_entry_removal_amended cfgMax0 eOk stC4 5 kA (Or.inl rfl)).1 rfl).1,
   ((C4_entry_removal_amended cfgMax0 eOk stC4 5 kA (Or.inl rfl)).1 rfl).2.1⟩

/-- C10: release_vif on a pod whose status has no hostIP raises KeyError
before touching any registry: the state is returned unchanged. -/
theorem C10_release_missing_host (st : PoolState) (pod : Pod) (vif : Vif)
    (project_id : ProjectId) (sgs : List SecGroup) (h : pod.hostIP = none) :
    release_vif st pod vif project_id sgs = ⟨Except.error PyErr.keyError, st⟩ := by
  unfold release_vif
  rw [h]

theorem C10_release_missing_host_witness :
    release_vif stW ⟨none⟩ vif5 1 [1] = ⟨Except.error PyErr.keyError, stW⟩ :=
  C10_release_missing_host stW ⟨none⟩ vif5 1 [1] rfl

def vif7 : Vif := ⟨7, 70⟩

/-- State for C1: pool kA is at its max of 1 (port 7), ports 5 and 6 wait
in the recyclable queue, everything is registered. -/
def stC1 : PoolState :=
  ⟨[(kA, [7])], [(7, vif7), (5, vif5), (6, vif6)], [(5, kA), (6, kA)], [], []⟩

/-- Oracle for C1: delete_port on port 5 raises a generic
NeutronClientException, every other call succeeds. -/
def envDel5Err : PortId → IterEnv := fun id => if id = 5 then eDelErr else eOk

/-- Oracle where every neutron call succeeds (and no trunk id can be
resolved, since _get_parent_port_by_host_ip raises for unknown hosts). -/
def envOk : PortId → IterEnv := fun _ => eOk

/-- C1 (violated by the code): a single-entry provider failure terminates
the reclamation sweep.  Flat variant: a generic NeutronClientException
from delete_port on entry (5, kA) is caught by no handler, the sweep
raises, and entry (6, kA) is never processed (it stays in the recyclable
queue with its vif still registered and no call is made for it).  Nested
variant: trunk resolution happens outside the try block, so its failure
likewise raises out of the sweep, before any entry is processed. -/
theorem C1_sweep_dies_on_single_entry_failure :
    (neutron_sweep cfgMax1 envDel5Err stC1).out = IterOut.raised PyErr.neutronClientError ∧
    (neutron_sweep cfgMax1 envDel5Err stC1).calls = [PCall.deletePort 5] ∧
    dictGet (neutron_sweep cfgMax1 envDel5Err stC1).state.recyclable 6 = some kA ∧
    dictGet (neutron_sweep cfgMax1 envDel5Err stC1).state.existing 6 = some vif6 ∧
    (nested_sweep cfgMax1 envOk stC1).out = IterOut.raised PyErr.neutronClientError ∧
    (nested_sweep cfgMax1 envOk stC1).calls = [PCall.trunkResolve kA] ∧
    (nested_sweep cfgMax1 envOk stC1).state = stC1 := by
  decide

/-- Configuration for the C5 counterexample: max 4, min 2, batch 10. -/
def cfgC5 : Config := ⟨4, 2, 10, 20⟩

/-- The empty state. -/
def st0 : PoolState := ⟨[], [], [], [], []⟩

/-- Ten fresh vifs, as a batch reply of the provider. -/
def vifsTen : List Vif := (List.range 10).map (fun i => ⟨i + 1, 0⟩)

theorem C5_pool_max_counterexample :
    ¬ (get_pool_size (neutron_sweep cfgC5 envOk
        (populate_pool cfgC5 st0 kA 100 (some vifsTen)).state).state kA ≤
        cfgC5.ports_pool_max) := by
  decide

/-- C5 (amended): provided AvailablePool[key] holds at most poolMax = N > 0
ids when the cycle starts, it still does after a full reclamation cycle of
either variant; a recyclable resource is returned only when the pool is
strictly below N — at capacity the iteration leaves every pool untouched
and attempts deletion instead.  (The initial bound is needed: a
replenishment batch can push a pool past N, and a cycle never shrinks a
pool, as the counterexample shows.) -/
theorem C5_pool_max_amended (cfg : Config) (envf : PortId → IterEnv) (st : PoolState)
    (key : PoolKey) (hN : 0 < cfg.ports_pool_max)
    (hsz : get_pool_size st key ≤ cfg.ports_pool_max) :
    get_pool_size (neutron_sweep cfg envf st).state key ≤ cfg.ports_pool_max ∧
    get_pool_size (nested_sweep cfg envf st).state key ≤ cfg.ports_pool_max ∧
    (∀ e port_id k2, cfg.ports_pool_max ≤ get_pool_size st k2 →
      (neutron_return_one cfg e st port_id k2).state.available = st.available ∧
      (nested_return_one cfg e st port_id k2).state.available = st.available) ∧
    (∀ e port_id k2, cfg.ports_pool_max ≤ get_pool_size st k2 →
      (dictGet st.existing port_id).isSome = true →
      PCall.deletePort port_id ∈ (neutron_return_one cfg e st port_id k2).calls) := by
  refine ⟨?_, ?_, ?_, ?_⟩
  · exact flat_sweep_go_size cfg envf key hN st.recyclable st [] hsz
  · exact nested_sweep_go_size cfg envf key hN st.recyclable st [] hsz
  · intro e port_id k2 hle
    have hc1 : ¬ (cfg.ports_pool_max = 0 ∨ get_pool_size st k2 < cfg.ports_pool_max) := by
      rintro (h0 | h0) <;> omega
    exact ⟨flat_iter_at_capacity_avail cfg e st port_id k2 hc1,
           nested_iter_at_capacity_avail cfg e st port_id k2 hc1⟩
  · intro e port_id k2 hle hex
    have hc1 : ¬ (cfg.ports_pool_max = 0 ∨ get_pool_size st k2 < cfg.ports_pool_max) := by
      rintro (h0 | h0) <;> omega
    cases h3 : dictGet st.existing port_id with
    | none => rw [h3] at hex; simp at hex
    | some vif =>
      cases h4 : e.deleteRes with
      | none => simp [neutron_return_one, if_neg hc1, h3, h4]
      | some nerr => cases nerr <;> simp [neutron_return_one, if_neg hc1, h3, h4]

theorem C5_pool_max_amended_witness :
    get_pool_size stC3 kA ≤ cfgMax1.ports_pool_max ∧
    get_pool_size (neutron_sweep cfgMax1 envOk stC3).state kA ≤ cfgMax1.ports_pool_max :=
  ⟨by decide, (C5_pool_max_amended cfgMax1 envOk stC3 kA (by decide) (by decide)).1⟩

/-- State for the C6 counterexample: pool kA already holds five ids, so it
is not below ports_pool_min = 5. -/
def stC6 : PoolState := ⟨[(kA, [1, 2, 3, 4, 6])], [], [], [], []⟩

theorem C6_populate_counterexample :
    max cfgMax0.ports_pool_batch (cfgMax0.ports_pool_min - get_pool_size stC6 kA) = 10 ∧
    (populate_pool cfgMax0 stC6 kA 100 (some [])).calls = [] := by
  decide

/-- C6 (amended): when the debounce window has passed, _populate_pool
records LastReplenish[key] = now before any provider I/O (also when the
provider call then raises); then, only if the current pool size is below
poolMin, it requests exactly max(batchSize, poolMin − currentSize)
resources and registers each returned resource into ExistingResources and
pushes its id onto AvailablePool[key]; when the size is at or above
poolMin, no provider request is made at all (the claim asserted one of
size max(batchSize, poolMin − currentSize)). -/
theorem C6_populate_amended (cfg : Config) (st : PoolState) (key : PoolKey)
    (now : Int) (reply : Option (List Vif))
    (hdeb : ¬ (now - cfg.ports_pool_update_frequency <
        (dictGet st.last_update key).getD 0)) :
    dictGet (populate_pool cfg st key now reply).state.last_update key = some now ∧
    (get_pool_size st key < cfg.ports_pool_min →
      (populate_pool cfg st key now reply).calls =
        [PCall.requestVifs (max cfg.ports_pool_batch
            (cfg.ports_pool_min - get_pool_size st key))]) ∧
    (¬ get_pool_size st key < cfg.ports_pool_min →
      (populate_pool cfg st key now reply).calls = [] ∧
      (populate_pool cfg st key now reply).state =
        { st with last_update := dictSet st.last_update key now }) ∧
    (∀ vifs, reply = some vifs → (vifs.map Vif.id).Nodup →
      get_pool_size st key < cfg.ports_pool_min →
      ∀ v ∈ vifs,
        dictGet (populate_pool cfg st key now reply).state.existing v.id = some v ∧
        v.id ∈ getPool (populate_pool cfg st key now reply).state key) := by
  unfold populate_pool
  dsimp only
  rw [if_neg hdeb]
  by_cases hsz : get_pool_size { st with last_update := dictSet st.last_update key now }
      key < cfg.ports_pool_min
  · rw [if_pos hsz]
    refine ⟨?_, ?_, ?_, ?_⟩
    · cases reply with
      | none => exact dictGet_dictSet_self _ _ _
      | some vifs =>
        have hms := (foldl_register_misc key vifs
          { st with last_update := dictSet st.last_update key now }).2.1
        dsimp only
        rw [hms]
        exact dictGet_dictSet_self _ _ _
    · intro _
      cases reply with
      | none => rfl
      | some vifs => rfl
    · intro hnsz
      exact absurd hsz hnsz
    · intro vifs hr hnd _ v hv
      subst hr
      refine ⟨?_, ?_⟩
      · exact foldl_register_existing_mem key vifs hnd _ v hv
      · rw [foldl_register_getPool key vifs _]
        exact List.mem_append.mpr (Or.inr (List.mem_map.mpr ⟨v, hv, rfl⟩))
  · rw [if_neg hsz]
    refine ⟨?_, ?_, ?_, ?_⟩
    · exact dictGet_dictSet_self _ _ _
    · intro hszst
      exact absurd hszst hsz
    · intro _
      exact ⟨rfl, rfl⟩
    · intro vifs hr hnd hszst v hv
      exact absurd hszst hsz

theorem C6_populate_amended_witness :
    (populate_pool cfgMax0 st0 kA 100 (some vifsTen)).calls = [PCall.requestVifs 10] ∧
    dictGet (populate_pool cfgMax0 st0 kA 100 (some vifsTen)).state.last_update kA =
      some 100 ∧
    dictGet (populate_pool cfgMax0 st0 kA 100 (some vifsTen)).state.existing 1 =
      some ⟨1, 0⟩ :=
  ⟨(C6_populate_amended cfgMax0 st0 kA 100 (some vifsTen) (by decide)).2.1 (by decide),
   (C6_populate_amended cfgMax0 st0 kA 100 (some vifsTen) (by decide)).1,
   ((C6_populate_amended cfgMax0 st0 kA 100 (some vifsTen) (by decide)).2.2.2 vifsTen rfl
     (by decide) (by decide) ⟨1, 0⟩ (by decide)).1⟩

/-- C7: request_vif on an empty pool fails with ResourceNotReady, leaves
the state unchanged, makes no provider call, and triggers exactly one
replenishment spawn for the derived key; and a populate entered less than
updateFrequency after LastReplenish[key] returns with no allocation call
and no registry change at all. -/
theorem C7_empty_pool_debounce (cfg : Config) (st : PoolState) (pod : Pod)
    (project_id : ProjectId) (sgs : List SecGroup) (updateRes : Option NErr)
    (host : HostAddr) (now : Int) (key : PoolKey) (reply : Option (List Vif)) :
    (pod.hostIP = some host →
      getPool st ⟨host, project_id, sgs⟩ = [] →
      request_vif cfg st pod project_id sgs updateRes =
        ⟨Except.error PyErr.resourceNotReady, st, [⟨host, project_id, sgs⟩], []⟩) ∧
    (now - cfg.ports_pool_update_frequency < (dictGet st.last_update key).getD 0 →
      populate_pool cfg st key now reply = ⟨st, [], false⟩) := by
  refine ⟨?_, ?_⟩
  · intro h1 h2
    unfold request_vif
    rw [h1]
    dsimp only
    unfold get_port_from_pool
    rw [h2]
    rfl
  · intro hdeb
    unfold populate_pool
    rw [if_pos hdeb]

/-- State whose kA pool was replenished at time 100. -/
def stLate : PoolState := ⟨[], [], [], [(kA, 100)], []⟩

theorem C7_empty_pool_debounce_witness :
    request_vif cfgMax0 st0 ⟨some 1⟩ 1 [1] none =
      ⟨Except.error PyErr.resourceNotReady, st0, [kA], []⟩ ∧
    populate_pool cfgMax0 stLate kA 105 none = ⟨stLate, [], false⟩ :=
  ⟨(C7_empty_pool_debounce cfgMax0 st0 ⟨some 1⟩ 1 [1] none 1 0 kA none).1 rfl rfl,
   (C7_empty_pool_debounce cfgMax0 stLate ⟨some 1⟩ 1 [1] none 1 105 kA none).2 (by decide)⟩

/-- C8: in the nested deletion arm (pool at its nonzero max), a failed
subport detach never reaches delete_port and leaves the existing vifs
untouched; and when the trunk is resolved (cached or looked up), the
detach succeeds and the vif is registered, the calls are exactly
detach, then vlan release, then delete — deletion only after both. -/
theorem C8_nested_detach_before_delete (cfg : Config) (e : IterEnv) (st : PoolState)
    (port_id : PortId) (pool_key : PoolKey)
    (hmax : cfg.ports_pool_max ≠ 0)
    (hsz : ¬ get_pool_size st pool_key < cfg.ports_pool_max) :
    (∀ nerr, e.removeRes = some nerr →
      PCall.deletePort port_id ∉ (nested_return_one cfg e st port_id pool_key).calls ∧
      (nested_return_one cfg e st port_id pool_key).state.existing = st.existing) ∧
    (∀ trunk_id vif, dictGet st.known_trunk_ids pool_key = some trunk_id →
      e.removeRes = none → dictGet st.existing port_id = some vif →
      (nested_return_one cfg e st port_id pool_key).calls =
        [PCall.removeSubport trunk_id port_id, PCall.releaseVlan vif.vlan_id,
         PCall.deletePort port_id]) ∧
    (∀ trunk_id vif, dictGet st.known_trunk_ids pool_key = none →
      e.trunkRes = some trunk_id → e.removeRes = none →
      dictGet st.existing port_id = some vif →
      (nested_return_one cfg e st port_id pool_key).calls =
        [PCall.trunkResolve pool_key, PCall.removeSubport trunk_id port_id,
         PCall.releaseVlan vif.vlan_id, PCall.deletePort port_id]) := by
  have hc1 : ¬ (cfg.ports_pool_max = 0 ∨ get_pool_size st pool_key < cfg.ports_pool_max) := by
    rintro (h0 | h0)
    · exact hmax h0
    · exact hsz h0
  refine ⟨?_, ?_, ?_⟩
  · intro nerr h1
    cases h3 : dictGet st.known_trunk_ids pool_key with
    | some trunk_id =>
      cases nerr <;>
        simp [nested_return_one, nested_delete_branch, if_neg hc1, h3, h1]
    | none =>
      cases h4 : e.trunkRes with
      | none => simp [nested_return_one, if_neg hc1, h3, h4]
      | some trunk_id =>
        cases nerr <;>
          simp [nested_return_one, nested_delete_branch, if_neg hc1, h3, h4, h1]
  · intro trunk_id vif h3 h1 h2
    cases h5 : e.deleteRes with
    | none => simp [nested_return_one, nested_delete_branch, if_neg hc1, h3, h1, h2, h5]
    | some nerr =>
      cases nerr <;>
        simp [nested_return_one, nested_delete_branch, if_neg hc1, h3, h1, h2, h5]
  · intro trunk_id vif h3 h4 h1 h2
    cases h5 : e.deleteRes with
    | none => simp [nested_return_one, nested_delete_branch, if_neg hc1, h3, h4, h1, h2, h5]
    | some nerr =>
      cases nerr <;>
        simp [nested_return_one, nested_delete_branch, if_neg hc1, h3, h4, h1, h2, h5]

/-- Oracle for the C8 witness: the subport detach raises a transient
NeutronClientException. -/
def eRemErr : IterEnv := ⟨none, none, none, some NErr.clientError⟩

theorem C8_nested_detach_before_delete_witness :
    (PCall.deletePort 5 ∉ (nested_return_one cfgMax1 eRemErr stC3n 5 kA).calls ∧
      (nested_return_one cfgMax1 eRemErr stC3n 5 kA).state.existing = stC3n.existing) ∧
    (nested_return_one cfgMax1 eOk stC3n 5 kA).calls =
      [PCall.removeSubport 77 5, PCall.releaseVlan vif5.vlan_id, PCall.deletePort 5] :=
  ⟨(C8_nested_detach_before_delete cfgMax1 eRemErr stC3n 5 kA (by decide) (by decide)).1
      NErr.clientError rfl,
   (C8_nested_detach_before_delete cfgMax1 eOk stC3n 5 kA (by decide) (by decide)).2.1
      77 vif5 rfl rfl (by decide)⟩

/-- C9: when the pop succeeds (the pool for the derived key ends in
port_id) but update_port raises, request_vif propagates the exception to
its caller, and afterwards the popped id is in no available pool and not
in the recyclable queue while still registered in existing vifs: the pop
is not rolled back, the resource is stranded in the in-use state. -/
theorem C9_bind_failure_strands_port (cfg : Config) (st : PoolState) (pod : Pod)
    (project_id : ProjectId) (sgs : List SecGroup) (host : HostAddr)
    (l : List PortId) (port_id : PortId) (nerr : NErr)
    (hip : pod.hostIP = some host)
    (hpool : getPool st ⟨host, project_id, sgs⟩ = l ++ [port_id])
    (hnl : port_id ∉ l)
    (hnodup : availKeysNodup st)
    (hu : uniqueLocation st)
    (hex : (dictGet st.existing port_id).isSome = true) :
    (request_vif cfg st pod project_id sgs (some nerr)).result =
      Except.error (nerrToPy nerr) ∧
    ¬ inAvail (request_vif cfg st pod project_id sgs (some nerr)).state port_id ∧
    dictGet (request_vif cfg st pod project_id sgs (some nerr)).state.recyclable
      port_id = none ∧
    (dictGet (request_vif cfg st pod project_id sgs (some nerr)).state.existing
      port_id).isSome = true := by
  have hkey : dictGet st.available ⟨host, project_id, sgs⟩ = some (l ++ [port_id]) := by
    unfold getPool at hpool
    cases hdg : dictGet st.available ⟨host, project_id, sgs⟩ with
    | none =>
      rw [hdg] at hpool
      simp at hpool
    | some b =>
      rw [hdg] at hpool
      simp only [Option.getD_some] at hpool
      rw [hpool]
  have hgl : (getPool st ⟨host, project_id, sgs⟩).getLast? = some port_id := by
    rw [hpool]
    exact List.getLast?_concat _
  have hdl : (getPool st ⟨host, project_id, sgs⟩).dropLast = l := by
    rw [hpool]
    exact List.dropLast_concat
  have hreq : request_vif cfg st pod project_id sgs (some nerr) =
      ⟨Except.error (nerrToPy nerr),
       { st with
         available := dictSet st.available ⟨host, project_id, sgs⟩
             (getPool st ⟨host, project_id, sgs⟩).dropLast },
       [],
       [PCall.updatePort port_id]⟩ := by
    unfold request_vif
    rw [hip]
    dsimp only
    unfold get_port_from_pool
    rw [hgl]
    cases nerr <;> rfl
  have hmementry : (⟨host, project_id, sgs⟩, l ++ [port_id]) ∈ st.available :=
    dictGet_some_mem hkey
  have hinav : inAvailL st.available port_id :=
    ⟨(⟨host, project_id, sgs⟩, l ++ [port_id]), hmementry, by simp⟩
  refine ⟨by rw [hreq], ?_, ?_, ?_⟩
  · rw [hreq]
    dsimp only
    rw [hdl]
    rintro ⟨f, hf, hmemf⟩
    rcases mem_dictSet_nodup hnodup hf with rfl | ⟨hf', hne⟩
    · exact hnl hmemf
    · exact hne (hu.2 f hf' (⟨host, project_id, sgs⟩, l ++ [port_id]) hmementry
        port_id hmemf (by simp))
  · rw [hreq]
    dsimp only
    cases hr : dictGet st.recyclable port_id with
    | none => rfl
    | some k2 =>
      exact absurd hinav (hu.1 (port_id, k2) (dictGet_some_mem hr))
  · rw [hreq]
    dsimp only
    exact hex

theorem C9_bind_failure_strands_port_witness :
    (request_vif cfgMax0 stW ⟨some 1⟩ 1 [1] (some NErr.clientError)).result =
      Except.error PyErr.neutronClientError ∧
    ¬ inAvail (request_vif cfgMax0 stW ⟨some 1⟩ 1 [1] (some NErr.clientError)).state 2 ∧
    dictGet (request_vif cfgMax0 stW ⟨some 1⟩ 1 [1]
      (some NErr.clientError)).state.recyclable 2 = none ∧
    (dictGet (request_vif cfgMax0 stW ⟨some 1⟩ 1 [1]
      (some NErr.clientError)).state.existing 2).isSome = true :=
  C9_bind_failure_strands_port cfgMax0 stW ⟨some 1⟩ 1 [1] 1 [1] 2 NErr.clientError rfl
    (by decide) (by decide) (by decide) (by decide) (by decide)

end VifPool
